import Mathlib

/-!
Shallow embedding of the content-aware double-page splitter
(`services/manga_upscale_service/doublepage_split.py`).

Images and masks are modelled as lists of rows; floating point values are
modelled as rationals.  The two OpenCV-backed primitives — the foreground
mask construction (`_build_foreground_mask`: grayscale conversion, Gaussian
blur, CLAHE, Otsu threshold, morphology) and the 1-D Gaussian smoothing of
the column projection (`cv2.GaussianBlur` inside `_locate_split`) — are
external library calls; the development abstracts them as function
parameters (`buildMask`, `smooth`), so theorems quantify over them.
Everything else is translated statement by statement from the source.
-/

namespace DoublepageSplit

attribute [local semireducible] Rat.mul Rat.add Rat.sub Rat.inv

/-- An 8-bit image: a list of rows, each row a list of pixel values.
Channels play no role in any property below, so one value per pixel. -/
structure Image where
  data : List (List Nat)
deriving DecidableEq, Repr

/-- `image.shape[0]`. -/
def Image.height (img : Image) : Nat := img.data.length

/-- `image.shape[1]` (numpy arrays are rectangular; the first row's length). -/
def Image.width (img : Image) : Nat := (img.data.headD []).length

/-- A boolean foreground mask, same layout as `Image`. -/
structure Mask where
  data : List (List Bool)
deriving DecidableEq, Repr

def Mask.height (m : Mask) : Nat := m.data.length

def Mask.width (m : Mask) : Nat := (m.data.headD []).length

/-- Mask cell lookup, `mask[y, x]`; out-of-range reads as `False`. -/
def Mask.get (m : Mask) (y x : Nat) : Bool := (m.data.getD y []).getD x false

/-- Number of `True` cells of the mask. -/
def Mask.countTrue (m : Mask) : Nat :=
  (m.data.map (fun row => row.countP (fun b => b))).sum

/-- `mask.mean()`: fraction of `True` cells. -/
def Mask.mean (m : Mask) : ℚ :=
  (m.countTrue : ℚ) / ((m.height * m.width : Nat) : ℚ)

/-- `mask.any()`. -/
def Mask.any (m : Mask) : Bool := m.data.any (fun row => row.any (fun b => b))

/-- `np.where(mask[:, x0:x1])`: the `(y, x)` positions (absolute
coordinates) of `True` cells whose column lies in `[x0, x1)`. -/
def Mask.whereIn (m : Mask) (x0 x1 : Nat) : List (Nat × Nat) :=
  (List.range m.height).flatMap (fun y =>
    ((List.range m.width).filter
      (fun x => decide (x0 ≤ x) && decide (x < x1) && m.get y x)).map (fun x => (y, x)))

/-- `mask.sum(axis=0)`: ink mass per column. -/
def Mask.projection (m : Mask) : List ℚ :=
  (List.range m.width).map (fun x => ((m.data.countP (fun row => row.getD x false)) : ℚ))

/-- Bounding box `(x_min, y_min, x_max_exclusive, y_max_exclusive)`. -/
structure BBox where
  x_min : Nat
  y_min : Nat
  x_max : Nat
  y_max : Nat
deriving DecidableEq, Repr

/-- `SplitConfig` with the source's defaults. -/
structure SplitConfig where
  min_aspect_ratio : ℚ := 12/10
  padding_ratio : ℚ := 15/1000
  confidence_threshold : ℚ := 1/10
  cover_content_ratio : ℚ := 45/100
  edge_exclusion_ratio : ℚ := 12/100
  min_foreground_ratio : ℚ := 1/100
deriving DecidableEq, Repr

/-- Metadata values: strings, rationals (floats), naturals (ints), and the
nested bbox dictionary. -/
inductive MetaValue
  | s (v : String)
  | q (v : ℚ)
  | i (v : Nat)
  | bbox (x y w h : Nat)
deriving DecidableEq, Repr

/-- `SplitResult`. -/
structure SplitResult where
  mode : String
  split_x : Option Nat
  confidence : ℚ
  content_width_ratio : ℚ
  pages : List Image
  metadata : List (String × MetaValue)
deriving DecidableEq, Repr

/-- `SplitConfig()` with no overrides. -/
def defaultConfig : SplitConfig := {}

/-- `int(q)` for the non-negative quantities it is applied to (floor). -/
def ratFloorNat (q : ℚ) : Nat := (⌊q⌋).toNat

/-- The `1e-6` stabiliser used in every denominator of `_locate_split`. -/
def eps : ℚ := 1/1000000

/-- `arr.max()` (the source only calls it on non-empty arrays; the `0`
default for the empty list is never reached there). -/
def npMax (l : List ℚ) : ℚ :=
  match l with
  | [] => 0
  | x :: xs => xs.foldl max x

/-- Loop of `np.argmin`: scan keeping the first strictly-smallest value. -/
def npArgminGo : List ℚ → Nat × Nat × ℚ → Nat × Nat × ℚ
  | [], acc => acc
  | v :: rest, (bi, i, bv) =>
      if v < bv then npArgminGo rest (i, i + 1, v) else npArgminGo rest (bi, i + 1, bv)

/-- `np.argmin(arr)`: index of the first minimum. -/
def npArgmin (l : List ℚ) : Nat := (npArgminGo l (0, 0, l.headD 0)).1

/-- `np.cumsum(arr)`. -/
def npCumsum (l : List ℚ) : List ℚ := (l.scanl (fun a b => a + b) 0).tail

/-- `np.clip(v, lo, hi)`. -/
def npClip (v lo hi : Int) : Int := min (max v lo) hi

/-- `_compute_bbox(mask)`: tight bounding box of the `True` cells (the
source only calls it on non-empty masks, so the `getD 0` defaults for the
empty list are never reached there). -/
def computeBbox (m : Mask) : BBox :=
  let cells := m.whereIn 0 m.width
  let xs := cells.map Prod.snd
  let ys := cells.map Prod.fst
  ⟨(xs.min?).getD 0, (ys.min?).getD 0, (xs.max?).getD 0 + 1, (ys.max?).getD 0 + 1⟩

/-- `_crop_region(image, bbox, padding_x, padding_y)`: crop with safety
padding, clipped to the image bounds.  Natural subtraction realises
`max(x_min - padding_x, 0)`. -/
def cropRegion (image : Image) (bbox : BBox) (padding_x padding_y : Nat) : Image :=
  let height := image.height
  let width := image.width
  let x0 := bbox.x_min - padding_x
  let x1 := min (bbox.x_max + padding_x) width
  let y0 := bbox.y_min - padding_y
  let y1 := min (bbox.y_max + padding_y) height
  ⟨((image.data.drop y0).take (y1 - y0)).map (fun row => (row.drop x0).take (x1 - x0))⟩

/-- `_compute_region_bbox(mask, x_start, x_end)`: bounding box of the mask
restricted to columns `[x_start, x_end)`; degenerates to the full vertical
extent and the full column span when the restriction holds no `True` cell. -/
def computeRegionBbox (m : Mask) (x_start x_end : Nat) : BBox :=
  let cells := m.whereIn x_start x_end
  if cells = [] then
    ⟨x_start, 0, x_end, m.height⟩
  else
    let xs := cells.map Prod.snd
    let ys := cells.map Prod.fst
    ⟨(xs.min?).getD 0, (ys.min?).getD 0, (xs.max?).getD 0 + 1, (ys.max?).getD 0 + 1⟩

/-- `_collect_valleys(data, start, end)`: indices of local minima (value at
most both neighbours) in `[max(start,1), min(end, data.size - 1))`. -/
def collectValleys (data : List ℚ) (start stop : Nat) : List Nat :=
  (List.range (min stop (data.length - 1))).filter
    (fun idx =>
      decide (max start 1 ≤ idx) &&
      decide (data.getD idx 0 ≤ data.getD (idx - 1) 0) &&
      decide (data.getD idx 0 ≤ data.getD (idx + 1) 0))

/-- The composite candidate score of `_locate_split`:
`balance + 0.1 * depth` with `balance = |left_ratio - 0.5|` and
`depth = valley_value / (max_val + eps)`. -/
def scoreOf (smoothed cumulative : List ℚ) (total max_val : ℚ) (idx : Nat) : ℚ :=
  let valley_value := smoothed.getD idx 0
  let left_ratio := cumulative.getD idx 0 / (total + eps)
  let balance_score := |left_ratio - 1/2|
  let depth_score := valley_value / (max_val + eps)
  balance_score + (1/10) * depth_score

/-- The candidate-selection loop of `_locate_split`: running best index and
best score (`none` models the initial `float("inf")`). -/
def pickGo (score : Nat → ℚ) (best : Nat × Option ℚ) : List Nat → Nat × Option ℚ
  | [] => best
  | idx :: rest =>
      match best.2 with
      | none => pickGo score (idx, some (score idx)) rest
      | some bs =>
          if score idx < bs then pickGo score (idx, some (score idx)) rest
          else pickGo score best rest

/-- Best candidate: the loop started at `(candidates[0], inf)` and run over
all candidates. -/
def pickBest (smoothed cumulative : List ℚ) (total max_val : ℚ) (candidates : List Nat) : Nat :=
  (pickGo (scoreOf smoothed cumulative total max_val) (candidates.headD 0, none) candidates).1

/-- The confidence formula of `_locate_split`:
`(max_val - smoothed[best_idx]) / (max_val + eps)`. -/
def confidenceFormula (max_val valley : ℚ) : ℚ := (max_val - valley) / (max_val + eps)

/-- `_locate_split(mask, config)`: projection analysis.  `smooth` stands for
the 1-D Gaussian blur (`cv2.GaussianBlur` with `sigma = max(width/200, 1)`
and replicated borders) applied to the projection. -/
def locateSplit (smooth : List ℚ → List ℚ) (mask : Mask) (config : SplitConfig) :
    Option Nat × ℚ × List (String × MetaValue) :=
  let width := mask.width
  let projection := mask.projection
  if npMax projection ≤ 0 then
    (none, 0, [("confidence", MetaValue.q 0)])
  else
    let smoothed := smooth projection
    let edge_margin := max (ratFloorNat ((width : ℚ) * config.edge_exclusion_ratio)) 5
    if width ≤ edge_margin * 2 then
      (none, 0, [("confidence", MetaValue.q 0)])
    else
      let search_slice := (smoothed.drop edge_margin).take (width - edge_margin - edge_margin)
      if search_slice = [] then
        (none, 0, [("confidence", MetaValue.q 0)])
      else
        let valleys := collectValleys smoothed edge_margin (width - edge_margin)
        let candidates :=
          if valleys = [] then [npArgmin search_slice + edge_margin] else valleys
        let cumulative := npCumsum smoothed
        let total := cumulative.getLastD 0
        let max_val := npMax search_slice
        let best_idx := pickBest smoothed cumulative total max_val candidates
        let confidence := confidenceFormula max_val (smoothed.getD best_idx 0)
        let left_mass := cumulative.getD best_idx 0
        let right_mass := total - left_mass
        let imbalance := |left_mass - right_mass| / (total + eps)
        (some best_idx, confidence,
          [("projection_imbalance", MetaValue.q imbalance),
           ("projection_edge_margin", MetaValue.i edge_margin),
           ("projection_total_mass", MetaValue.q total)])

/-- `_extract_pages(image, mask, split_x, padding_x, padding_y)`: clamp the
split column into `[1, width - 1]`, then return the right page followed by
the left page. -/
def extractPages (image : Image) (mask : Mask) (split_x : Int)
    (padding_x padding_y : Nat) : List Image :=
  let width := mask.width
  let sc := (npClip split_x 1 ((width : Int) - 1)).toNat
  let right := cropRegion image (computeRegionBbox mask sc width) padding_x padding_y
  let left := cropRegion image (computeRegionBbox mask 0 sc) padding_x padding_y
  [right, left]

/-- `split_image(image, config=config)`, parameterised by the external
primitives `buildMask` (for `_build_foreground_mask`) and `smooth` (for the
projection blur inside `_locate_split`). -/
def split_image (buildMask : Image → Mask) (smooth : List ℚ → List ℚ)
    (image : Image) (config : SplitConfig) : SplitResult :=
  let height := image.height
  let width := image.width
  if (width : ℚ) < (height : ℚ) * config.min_aspect_ratio then
    ⟨"skip", none, 0, 0, [], [("reason", MetaValue.s "aspect_ratio")]⟩
  else
    let mask := buildMask image
    let foreground_ratio := mask.mean
    if foreground_ratio < config.min_foreground_ratio ∨ mask.any = false then
      ⟨"skip", none, 0, 0, [],
        [("reason", MetaValue.s "no_foreground"),
         ("foreground_ratio", MetaValue.q foreground_ratio)]⟩
    else
      let bbox := computeBbox mask
      let bbox_width := bbox.x_max - bbox.x_min
      let bbox_height := bbox.y_max - bbox.y_min
      let content_width_ratio := (bbox_width : ℚ) / (width : ℚ)
      let bbox_height_ratio := (bbox_height : ℚ) / (height : ℚ)
      let metadata0 : List (String × MetaValue) :=
        [("foreground_ratio", MetaValue.q foreground_ratio),
         ("bbox", MetaValue.bbox bbox.x_min bbox.y_min bbox_width bbox_height)]
      let padding_x := max 1 (ratFloorNat (config.padding_ratio * (width : ℚ)))
      let padding_y := max 1 (ratFloorNat (config.padding_ratio * (height : ℚ)))
      if content_width_ratio < config.cover_content_ratio ∧ bbox_height_ratio > 4/5 then
        ⟨"cover-trim", none, 1, content_width_ratio,
         [cropRegion image bbox padding_x padding_y],
         metadata0 ++
           [("splitMode", MetaValue.s "cover-trim"),
            ("content_width_ratio", MetaValue.q content_width_ratio),
            ("bbox_height_ratio", MetaValue.q bbox_height_ratio)]⟩
      else
        let loc := locateSplit smooth mask config
        let sel : Nat × ℚ × String :=
          if loc.1 = none ∨ loc.2.1 < config.confidence_threshold then
            (width / 2, max loc.2.1 0, "fallback-center")
          else
            (loc.1.getD 0, loc.2.1, "split")
        let split_x := sel.1
        let confidence := sel.2.1
        let mode := sel.2.2
        let pages := extractPages image mask (split_x : Int) padding_x padding_y
        ⟨mode, some split_x, confidence, content_width_ratio, pages,
         metadata0 ++ loc.2.2 ++
           [("splitMode", MetaValue.s mode),
            ("split_x", MetaValue.i split_x),
            ("confidence", MetaValue.q confidence),
            ("content_width_ratio", MetaValue.q content_width_ratio)]⟩

/-- A concrete instance of the abstract mask-builder parameter, used by the
closed witnesses: dark pixels (value below 128) count as ink. -/
def thresholdMask (img : Image) : Mask :=
  ⟨img.data.map (fun row => row.map (fun v => decide (v < 128)))⟩

/-- A concrete instance of the abstract smoothing parameter, used by the
closed witnesses: the identity smoothing. -/
def identitySmooth (l : List ℚ) : List ℚ := l

/-- A 12x2 all-dark spread: its projection is flat, so the located valley has
zero relative depth and the splitter falls back to the centre. -/
def uniformSample : Image := ⟨List.replicate 2 (List.replicate 12 0)⟩

/-- A 12x2 canvas with a dark 4-column, full-height block in the middle:
narrow, tall content that triggers the cover-trim branch. -/
def coverSample : Image :=
  ⟨List.replicate 2 [255, 255, 255, 255, 0, 0, 0, 0, 255, 255, 255, 255]⟩

/-- A 4x4 square image: below the spread aspect ratio, so it is skipped. -/
def squareSample : Image := ⟨List.replicate 4 (List.replicate 4 0)⟩

/-- A zero-area image: one row of width zero. -/
def zeroWidthSample : Image := ⟨[[]]⟩

/-! ### Helper lemmas -/

lemma le_foldl_max (a : ℚ) (l : List ℚ) : a ≤ l.foldl max a := by
  induction l generalizing a with
  | nil => exact le_refl a
  | cons x xs ih => exact le_trans (le_max_left a x) (ih (max a x))

lemma mem_le_foldl_max (l : List ℚ) (a x : ℚ) (h : x ∈ l) : x ≤ l.foldl max a := by
  induction l generalizing a with
  | nil => cases h
  | cons y ys ih =>
      rcases List.mem_cons.mp h with h' | h'
      · subst h'
        exact le_trans (le_max_right a x) (le_foldl_max (max a x) ys)
      · exact ih (max a y) h'

lemma le_npMax_of_mem {l : List ℚ} {x : ℚ} (h : x ∈ l) : x ≤ npMax l := by
  cases l with
  | nil => cases h
  | cons a as =>
      rcases List.mem_cons.mp h with h' | h'
      · subst h'; exact le_foldl_max x as
      · exact mem_le_foldl_max as a x h'

lemma npArgminGo_bound (l : List ℚ) :
    ∀ (bi i : Nat) (bv : ℚ),
      (npArgminGo l (bi, i, bv)).1 = bi ∨
        (i ≤ (npArgminGo l (bi, i, bv)).1 ∧ (npArgminGo l (bi, i, bv)).1 < i + l.length) := by
  induction l with
  | nil => intro bi i bv; left; rfl
  | cons v rest ih =>
      intro bi i bv
      simp only [npArgminGo, List.length_cons]
      by_cases h : v < bv
      · rw [if_pos h]
        rcases ih i (i + 1) v with h' | ⟨h1, h2⟩
        · right; rw [h']; omega
        · right; omega
      · rw [if_neg h]
        rcases ih bi (i + 1) bv with h' | ⟨h1, h2⟩
        · left; exact h'
        · right; omega

lemma npArgmin_lt_length {l : List ℚ} (h : l ≠ []) : npArgmin l < l.length := by
  unfold npArgmin
  rcases npArgminGo_bound l 0 0 (l.headD 0) with h' | ⟨_, h2⟩
  · rw [h']; exact List.length_pos.mpr h
  · omega

lemma getD_mem_slice (l : List ℚ) (a n c : Nat)
    (h1 : a ≤ c) (h2 : c < a + n) (h3 : c < l.length) :
    l.getD c 0 ∈ (l.drop a).take n := by
  have hdl : c - a < (l.drop a).length := by
    rw [List.length_drop]; omega
  have hdt : c - a < ((l.drop a).take n).length := by
    rw [List.length_take]; omega
  have e1 : ((l.drop a).take n).get ⟨c - a, hdt⟩ = l.get ⟨c, h3⟩ := by
    simp only [List.get_eq_getElem, List.getElem_take, List.getElem_drop]
    congr 1
    omega
  have e4 : l.getD c 0 = l.get ⟨c, h3⟩ := by
    rw [List.getD_eq_getElem l 0 h3, List.get_eq_getElem]
  rw [e4, ← e1]
  exact List.get_mem _ _ _

lemma mem_slice_mem (l : List ℚ) (a n : Nat) {x : ℚ}
    (h : x ∈ (l.drop a).take n) : x ∈ l :=
  List.mem_of_mem_drop (List.mem_of_mem_take h)

lemma collectValleys_window {data : List ℚ} {start stop c : Nat}
    (h : c ∈ collectValleys data start stop) :
    start ≤ c ∧ c < stop ∧ c < data.length := by
  unfold collectValleys at h
  rw [List.mem_filter] at h
  obtain ⟨hr, hp⟩ := h
  rw [List.mem_range] at hr
  simp only [Bool.and_eq_true, decide_eq_true_eq] at hp
  omega

lemma pickGo_firstMin (score : Nat → ℚ) (l : List Nat) :
    ∀ b : Nat,
      ∃ l1 l2,
        b :: l = l1 ++ (pickGo score (b, some (score b)) l).1 :: l2 ∧
        (∀ x ∈ l1, score (pickGo score (b, some (score b)) l).1 < score x) ∧
        (∀ x ∈ l2, score (pickGo score (b, some (score b)) l).1 ≤ score x) := by
  induction l with
  | nil =>
      intro b
      refine ⟨[], [], rfl, ?_, ?_⟩
      · intro x hx; cases hx
      · intro x hx; cases hx
  | cons c rest ih =>
      intro b
      by_cases h : score c < score b
      · have hstep : pickGo score (b, some (score b)) (c :: rest) =
            pickGo score (c, some (score c)) rest := by
          simp only [pickGo]
          rw [if_pos h]
        obtain ⟨l1, l2, hdec, hlt, hle⟩ := ih c
        have hrc : score (pickGo score (c, some (score c)) rest).1 ≤ score c := by
          cases l1 with
          | nil =>
              simp only [List.nil_append] at hdec
              injection hdec with h1 _
              rw [← h1]
          | cons y t =>
              rw [List.cons_append] at hdec
              injection hdec with h1 _
              subst h1
              exact le_of_lt (hlt c (List.mem_cons_self c t))
        refine ⟨b :: l1, l2, ?_, ?_, ?_⟩
        · rw [hstep, List.cons_append, ← hdec]
        · intro x hx
          rw [hstep]
          rcases List.mem_cons.mp hx with h' | h'
          · subst h'; exact lt_of_le_of_lt hrc h
          · exact hlt x h'
        · intro x hx
          rw [hstep]
          exact hle x hx
      · have hstep : pickGo score (b, some (score b)) (c :: rest) =
            pickGo score (b, some (score b)) rest := by
          simp only [pickGo]
          rw [if_neg h]
        have hbc : score b ≤ score c := le_of_not_lt h
        obtain ⟨l1, l2, hdec, hlt, hle⟩ := ih b
        cases l1 with
        | nil =>
            simp only [List.nil_append] at hdec
            injection hdec with h1 h2
            refine ⟨[], c :: rest, ?_, ?_, ?_⟩
            · rw [hstep, ← h1, List.nil_append]
            · intro x hx; cases hx
            · intro x hx
              rw [hstep, ← h1]
              rcases List.mem_cons.mp hx with h' | h'
              · subst h'; exact hbc
              · rw [h2] at h'
                have := hle x h'
                rw [← h1] at this
                exact this
        | cons y t =>
            rw [List.cons_append] at hdec
            injection hdec with h1 h2
            subst h1
            refine ⟨b :: c :: t, l2, ?_, ?_, ?_⟩
            · rw [hstep, List.cons_append, List.cons_append, ← h2]
            · intro x hx
              rw [hstep]
              have hb' : score (pickGo score (b, some (score b)) rest).1 < score b :=
                hlt b (List.mem_cons_self b t)
              rcases List.mem_cons.mp hx with h' | h'
              · subst h'; exact hb'
              · rcases List.mem_cons.mp h' with h'' | h''
                · subst h''; exact lt_of_lt_of_le hb' hbc
                · exact hlt x (List.mem_cons_of_mem b h'')
            · intro x hx
              rw [hstep]
              exact hle x hx

lemma pickBest_step (smoothed cumulative : List ℚ) (total max_val : ℚ)
    (c : Nat) (cs : List Nat) :
    pickBest smoothed cumulative total max_val (c :: cs) =
      (pickGo (scoreOf smoothed cumulative total max_val)
        (c, some (scoreOf smoothed cumulative total max_val c)) cs).1 := by
  unfold pickBest
  simp only [List.headD_cons, pickGo]

lemma pickBest_firstMin (smoothed cumulative : List ℚ) (total max_val : ℚ)
    (candidates : List Nat) (h : candidates ≠ []) :
    ∃ l1 l2,
      candidates = l1 ++ pickBest smoothed cumulative total max_val candidates :: l2 ∧
      (∀ x ∈ l1, scoreOf smoothed cumulative total max_val
          (pickBest smoothed cumulative total max_val candidates) <
        scoreOf smoothed cumulative total max_val x) ∧
      (∀ x ∈ l2, scoreOf smoothed cumulative total max_val
          (pickBest smoothed cumulative total max_val candidates) ≤
        scoreOf smoothed cumulative total max_val x) := by
  cases candidates with
  | nil => exact absurd rfl h
  | cons c cs =>
      rw [pickBest_step]
      exact pickGo_firstMin (scoreOf smoothed cumulative total max_val) cs c

lemma pickBest_mem (smoothed cumulative : List ℚ) (total max_val : ℚ)
    (candidates : List Nat) (h : candidates ≠ []) :
    pickBest smoothed cumulative total max_val candidates ∈ candidates := by
  obtain ⟨l1, l2, hdec, -, -⟩ :=
    pickBest_firstMin smoothed cumulative total max_val candidates h
  have hm : pickBest smoothed cumulative total max_val candidates ∈
      l1 ++ pickBest smoothed cumulative total max_val candidates :: l2 :=
    List.mem_append_right l1 (List.mem_cons_self _ _)
  rwa [← hdec] at hm

lemma confidenceFormula_bounds {max_val v : ℚ} (h0 : 0 ≤ v) (h1 : v ≤ max_val) :
    0 ≤ confidenceFormula max_val v ∧ confidenceFormula max_val v ≤ 1 := by
  unfold confidenceFormula eps
  constructor
  · apply div_nonneg <;> linarith
  · rw [div_le_one (by linarith)]
    linarith

lemma locateSplit_confidence_bounds (smooth : List ℚ → List ℚ) (mask : Mask)
    (config : SplitConfig)
    (hs : ∀ x ∈ smooth mask.projection, 0 ≤ x) :
    0 ≤ (locateSplit smooth mask config).2.1 ∧
      (locateSplit smooth mask config).2.1 ≤ 1 := by
  simp only [locateSplit]
  split_ifs with h1 h2 h3 h4
  · exact ⟨le_refl 0, by norm_num⟩
  · exact ⟨le_refl 0, by norm_num⟩
  · exact ⟨le_refl 0, by norm_num⟩
  · -- main branch, no valleys: the single global-minimum candidate
    set smoothed := smooth mask.projection with hsm
    set w := Mask.width mask with hw
    set em := max (ratFloorNat ((w : ℚ) * config.edge_exclusion_ratio)) 5 with hem
    set ss := (smoothed.drop em).take (w - em - em) with hss
    set cum := npCumsum smoothed with hcum
    set best := pickBest smoothed cum (cum.getLastD 0) (npMax ss) [npArgmin ss + em] with hb
    have hmem : best ∈ [npArgmin ss + em] :=
      pickBest_mem smoothed cum (cum.getLastD 0) (npMax ss) _ (by simp)
    have hbe : best = npArgmin ss + em := by simpa using hmem
    have hlt : npArgmin ss < ss.length := npArgmin_lt_length h3
    have hlen : ss.length = min (w - em - em) (smoothed.length - em) := by
      rw [hss, List.length_take, List.length_drop]
    have hwin : em ≤ best ∧ best < w - em ∧ best < smoothed.length := by omega
    have hval : smoothed.getD best 0 ∈ ss := by
      rw [hss]
      exact getD_mem_slice smoothed em (w - em - em) best hwin.1 (by omega) hwin.2.2
    have h0 : 0 ≤ smoothed.getD best 0 :=
      hs _ (mem_slice_mem smoothed em (w - em - em) (hss ▸ hval))
    exact confidenceFormula_bounds h0 (le_npMax_of_mem hval)
  · -- main branch, valley candidates
    set smoothed := smooth mask.projection with hsm
    set w := Mask.width mask with hw
    set em := max (ratFloorNat ((w : ℚ) * config.edge_exclusion_ratio)) 5 with hem
    set ss := (smoothed.drop em).take (w - em - em) with hss
    set valleys := collectValleys smoothed em (w - em) with hv
    set cum := npCumsum smoothed with hcum
    set best := pickBest smoothed cum (cum.getLastD 0) (npMax ss) valleys with hb
    have hmem : best ∈ valleys :=
      pickBest_mem smoothed cum (cum.getLastD 0) (npMax ss) _ h4
    have hwin : em ≤ best ∧ best < w - em ∧ best < smoothed.length := by
      have := collectValleys_window (hv ▸ hmem)
      omega
    have h2' : em * 2 < w := by omega
    have hval : smoothed.getD best 0 ∈ ss := by
      rw [hss]
      exact getD_mem_slice smoothed em (w - em - em) best hwin.1 (by omega) hwin.2.2
    have h0 : 0 ≤ smoothed.getD best 0 :=
      hs _ (mem_slice_mem smoothed em (w - em - em) (hss ▸ hval))
    exact confidenceFormula_bounds h0 (le_npMax_of_mem hval)

/-! ### Claim theorems -/

/-- C1, counterexample: the claim says every zero-area input makes
`split_image` fail with an `InvalidInput` condition instead of returning a
`SplitResult`.  On the zero-area image of height 1 and width 0, the code
instead returns an ordinary `SplitResult` — the aspect-ratio rule fires
first (`0 < 1 * min_aspect_ratio`) and yields mode `"skip"` with reason
`"aspect_ratio"`; no validation or failure happens. -/
theorem c1_counterexample :
    split_image thresholdMask identitySmooth zeroWidthSample defaultConfig =
      ⟨"skip", none, 0, 0, [], [("reason", MetaValue.s "aspect_ratio")]⟩ := by
  decide

/-- C1, amended: `split_image` performs no explicit zero-area validation.
A zero-area input with `width = 0` (whenever `0 < height * min_aspect_ratio`)
returns a `Skip` result with reason `"aspect_ratio"` and no pages instead of
failing; only a zero-area input with `height = 0` and `width > 0` passes the
aspect gate and reaches the external mask-building library call, which is
where any failure would arise. -/
theorem c1_amended (buildMask : Image → Mask) (smooth : List ℚ → List ℚ)
    (image : Image) (config : SplitConfig)
    (hw : image.width = 0)
    (hh : 0 < (image.height : ℚ) * config.min_aspect_ratio) :
    split_image buildMask smooth image config =
      ⟨"skip", none, 0, 0, [], [("reason", MetaValue.s "aspect_ratio")]⟩ := by
  have h : (image.width : ℚ) < (image.height : ℚ) * config.min_aspect_ratio := by
    rw [hw]
    simpa using hh
  simp only [split_image]
  rw [if_pos h]

/-- C1, witness for the amended claim at the concrete zero-width image. -/
theorem c1_witness :
    zeroWidthSample.width = 0 ∧
      split_image thresholdMask identitySmooth zeroWidthSample defaultConfig =
        ⟨"skip", none, 0, 0, [], [("reason", MetaValue.s "aspect_ratio")]⟩ :=
  ⟨by decide,
   c1_amended thresholdMask identitySmooth zeroWidthSample defaultConfig
     (by decide) (by decide)⟩

/-- C5: for every image with `width < height * min_aspect_ratio`,
`split_image` returns mode `"skip"` with metadata reason `"aspect_ratio"`
and zero pages; the result is literally the same for every mask builder and
smoothing, so the rule is decided before any foreground analysis and
regardless of the image's content. -/
theorem c5_aspect_ratio_skip (buildMask : Image → Mask) (smooth : List ℚ → List ℚ)
    (image : Image) (config : SplitConfig)
    (h : (image.width : ℚ) < (image.height : ℚ) * config.min_aspect_ratio) :
    split_image buildMask smooth image config =
      ⟨"skip", none, 0, 0, [], [("reason", MetaValue.s "aspect_ratio")]⟩ ∧
    ∀ (bm : Image → Mask) (sm : List ℚ → List ℚ),
      split_image bm sm image config = split_image buildMask smooth image config := by
  have he : ∀ (bm : Image → Mask) (sm : List ℚ → List ℚ),
      split_image bm sm image config =
        ⟨"skip", none, 0, 0, [], [("reason", MetaValue.s "aspect_ratio")]⟩ := by
    intro bm sm
    simp only [split_image]
    rw [if_pos h]
  exact ⟨he buildMask smooth, fun bm sm => (he bm sm).trans (he buildMask smooth).symm⟩

/-- C5, witness at the concrete 4x4 square image. -/
theorem c5_witness :
    split_image thresholdMask identitySmooth squareSample defaultConfig =
      ⟨"skip", none, 0, 0, [], [("reason", MetaValue.s "aspect_ratio")]⟩ :=
  (c5_aspect_ratio_skip thresholdMask identitySmooth squareSample defaultConfig
    (by decide)).1

/-- C3: for every image that passes the aspect-ratio and foreground checks,
if `content_width_ratio < cover_content_ratio` and `bbox_height_ratio > 0.8`
then `split_image` returns mode `"cover-trim"` with confidence exactly 1,
`split_x = none`, and exactly one page: the bounding-box crop with the
symmetric padding `max(1, padding_ratio * dimension)` per axis. -/
theorem c3_cover_trim (buildMask : Image → Mask) (smooth : List ℚ → List ℚ)
    (image : Image) (config : SplitConfig)
    (mask : Mask) (hmask : buildMask image = mask)
    (bbox : BBox) (hbbox : computeBbox mask = bbox)
    (h1 : ¬((image.width : ℚ) < (image.height : ℚ) * config.min_aspect_ratio))
    (h2 : ¬(mask.mean < config.min_foreground_ratio ∨ mask.any = false))
    (hcov : ((bbox.x_max - bbox.x_min : Nat) : ℚ) / (image.width : ℚ) <
        config.cover_content_ratio ∧
      ((bbox.y_max - bbox.y_min : Nat) : ℚ) / (image.height : ℚ) > 4/5) :
    (split_image buildMask smooth image config).mode = "cover-trim" ∧
    (split_image buildMask smooth image config).confidence = 1 ∧
    (split_image buildMask smooth image config).split_x = none ∧
    (split_image buildMask smooth image config).pages =
      [cropRegion image bbox
        (max 1 (ratFloorNat (config.padding_ratio * (image.width : ℚ))))
        (max 1 (ratFloorNat (config.padding_ratio * (image.height : ℚ))))] := by
  subst hmask
  subst hbbox
  simp only [split_image]
  split_ifs
  exact ⟨rfl, rfl, rfl, rfl⟩

/-- C3, witness at the concrete cover-shaped image. -/
theorem c3_witness :
    (split_image thresholdMask identitySmooth coverSample defaultConfig).mode = "cover-trim" ∧
    (split_image thresholdMask identitySmooth coverSample defaultConfig).confidence = 1 := by
  have h := c3_cover_trim thresholdMask identitySmooth coverSample defaultConfig
    (thresholdMask coverSample) rfl (computeBbox (thresholdMask coverSample)) rfl
    (by decide) (by decide) (by decide)
  exact ⟨h.1, h.2.1⟩

/-- C2: on the path that reaches stage 4 (spread-shaped, has foreground, not
cover-trim): if the locator returns no candidate or a confidence below
`confidence_threshold`, the result is `"fallback-center"` with
`split_x = width / 2` and confidence clamped to be nonnegative
(`max confidence 0`); otherwise the result is `"split"` with the located
column and its confidence. -/
theorem c2_stage4 (buildMask : Image → Mask) (smooth : List ℚ → List ℚ)
    (image : Image) (config : SplitConfig)
    (mask : Mask) (hmask : buildMask image = mask)
    (loc : Option Nat × ℚ × List (String × MetaValue))
    (hloc : locateSplit smooth mask config = loc)
    (h1 : ¬((image.width : ℚ) < (image.height : ℚ) * config.min_aspect_ratio))
    (h2 : ¬(mask.mean < config.min_foreground_ratio ∨ mask.any = false))
    (h3 : ¬((((computeBbox mask).x_max - (computeBbox mask).x_min : Nat) : ℚ) /
          (image.width : ℚ) < config.cover_content_ratio ∧
        (((computeBbox mask).y_max - (computeBbox mask).y_min : Nat) : ℚ) /
          (image.height : ℚ) > 4/5)) :
    ((loc.1 = none ∨ loc.2.1 < config.confidence_threshold) →
      (split_image buildMask smooth image config).mode = "fallback-center" ∧
      (split_image buildMask smooth image config).split_x = some (image.width / 2) ∧
      (split_image buildMask smooth image config).confidence = max loc.2.1 0 ∧
      0 ≤ (split_image buildMask smooth image config).confidence) ∧
    (∀ i : Nat, loc.1 = some i → ¬(loc.2.1 < config.confidence_threshold) →
      (split_image buildMask smooth image config).mode = "split" ∧
      (split_image buildMask smooth image config).split_x = some i ∧
      (split_image buildMask smooth image config).confidence = loc.2.1) := by
  subst hmask
  subst hloc
  simp only [split_image]
  split_ifs with hsel
  · constructor
    · intro _
      exact ⟨rfl, rfl, rfl, le_max_right _ _⟩
    · intro i hi hconf
      rcases hsel with hnone | hlt
      · rw [hi] at hnone
        cases hnone
      · exact absurd hlt hconf
  · constructor
    · intro hfb
      exact absurd hfb hsel
    · intro i hi hconf
      refine ⟨rfl, ?_, rfl⟩
      rw [hi]
      rfl

set_option maxRecDepth 100000 in
/-- C2, witness at the concrete flat-projection image: the locator's
confidence is below the threshold, so the fallback-centre branch fires. -/
theorem c2_witness :
    (split_image thresholdMask identitySmooth uniformSample defaultConfig).mode =
        "fallback-center" ∧
      (split_image thresholdMask identitySmooth uniformSample defaultConfig).split_x =
        some 6 := by
  have h := c2_stage4 thresholdMask identitySmooth uniformSample defaultConfig
    (thresholdMask uniformSample) rfl
    (locateSplit identitySmooth (thresholdMask uniformSample) defaultConfig) rfl
    (by decide) (by decide) (by decide)
  obtain ⟨hm, hx, -, -⟩ := h.1 (Or.inr (by decide))
  exact ⟨hm, hx⟩

/-- C4: every result whose mode is `"split"` or `"fallback-center"` carries
exactly two pages, the right side first (mask columns from the clamped split
column to the right edge) and the left side second (columns from 0 to the
clamped split column); and a side whose restricted mask is empty gets the
degenerate bounding box covering the full vertical extent and the side's
full column span instead of failing. -/
theorem c4_pages_order (buildMask : Image → Mask) (smooth : List ℚ → List ℚ)
    (image : Image) (config : SplitConfig)
    (r : SplitResult) (hr : split_image buildMask smooth image config = r)
    (hmode : r.mode = "split" ∨ r.mode = "fallback-center") :
    (r.pages.length = 2 ∧
     ∃ s : Nat, r.split_x = some s ∧
       r.pages =
         [cropRegion image
            (computeRegionBbox (buildMask image)
              ((npClip (s : Int) 1 (((buildMask image).width : Int) - 1)).toNat)
              (buildMask image).width)
            (max 1 (ratFloorNat (config.padding_ratio * (image.width : ℚ))))
            (max 1 (ratFloorNat (config.padding_ratio * (image.height : ℚ)))),
          cropRegion image
            (computeRegionBbox (buildMask image) 0
              ((npClip (s : Int) 1 (((buildMask image).width : Int) - 1)).toNat))
            (max 1 (ratFloorNat (config.padding_ratio * (image.width : ℚ))))
            (max 1 (ratFloorNat (config.padding_ratio * (image.height : ℚ))))]) ∧
    (∀ (m : Mask) (a b : Nat), m.whereIn a b = [] →
      computeRegionBbox m a b = ⟨a, 0, b, m.height⟩) := by
  constructor
  · subst hr
    simp only [split_image] at hmode ⊢
    split_ifs at hmode ⊢ with ha hf hc hsel
    · simp at hmode
    · simp at hmode
    · simp at hmode
    · refine ⟨by simp [extractPages], image.width / 2, rfl, ?_⟩
      simp only [extractPages]
    · refine ⟨by simp [extractPages],
        ((locateSplit smooth (buildMask image) config).1.getD 0), rfl, ?_⟩
      simp only [extractPages]
  · intro m a b h
    simp only [computeRegionBbox]
    rw [if_pos h]

set_option maxRecDepth 100000 in
/-- C4, witness at the concrete flat-projection image (fallback mode). -/
theorem c4_witness :
    (split_image thresholdMask identitySmooth uniformSample defaultConfig).pages.length = 2 :=
  ((c4_pages_order thresholdMask identitySmooth uniformSample defaultConfig
      (split_image thresholdMask identitySmooth uniformSample defaultConfig) rfl
      (Or.inr (by decide))).1).1

/-- C6: for every input image, configuration, mask builder, and smoothing
that preserves nonnegativity of the projection, the confidence of the
returned `SplitResult` lies in `[0, 1]` (Skip yields 0, CoverTrim yields 1,
Split yields the relative valley depth, FallbackCenter the clamp to `≥ 0`). -/
theorem c6_confidence_unit (buildMask : Image → Mask) (smooth : List ℚ → List ℚ)
    (image : Image) (config : SplitConfig)
    (hs : ∀ x ∈ smooth (buildMask image).projection, 0 ≤ x) :
    0 ≤ (split_image buildMask smooth image config).confidence ∧
      (split_image buildMask smooth image config).confidence ≤ 1 := by
  have hb := locateSplit_confidence_bounds smooth (buildMask image) config hs
  simp only [split_image]
  split_ifs with ha hf hc hsel
  · exact ⟨le_refl 0, by norm_num⟩
  · exact ⟨le_refl 0, by norm_num⟩
  · exact ⟨by norm_num, le_refl 1⟩
  · exact ⟨le_max_right _ _, max_le hb.2 (by norm_num)⟩
  · exact hb

/-- C6, witness at the concrete square image. -/
theorem c6_witness :
    0 ≤ (split_image thresholdMask identitySmooth squareSample defaultConfig).confidence ∧
      (split_image thresholdMask identitySmooth squareSample defaultConfig).confidence ≤ 1 :=
  c6_confidence_unit thresholdMask identitySmooth squareSample defaultConfig (by decide)

/-- C7: in the Split Locator, every candidate is scored as
`balance + 0.1 * depth` (balance = distance of the left cumulative mass
fraction from 0.5, depth = smoothed valley value over the window maximum);
the returned candidate is a member attaining the minimum composite score,
and on ties the first (lowest-position) minimal candidate is kept: everything
before it in the candidate list scores strictly worse. -/
theorem c7_scoring (smoothed cumulative : List ℚ) (total max_val : ℚ)
    (candidates : List Nat) (h : candidates ≠ []) :
    (∀ idx : Nat,
      scoreOf smoothed cumulative total max_val idx =
        |cumulative.getD idx 0 / (total + eps) - 1/2| +
          (1/10) * (smoothed.getD idx 0 / (max_val + eps))) ∧
    pickBest smoothed cumulative total max_val candidates ∈ candidates ∧
    (∀ x ∈ candidates,
      scoreOf smoothed cumulative total max_val
          (pickBest smoothed cumulative total max_val candidates) ≤
        scoreOf smoothed cumulative total max_val x) ∧
    (∃ l1 l2,
      candidates = l1 ++ pickBest smoothed cumulative total max_val candidates :: l2 ∧
      ∀ x ∈ l1,
        scoreOf smoothed cumulative total max_val
            (pickBest smoothed cumulative total max_val candidates) <
          scoreOf smoothed cumulative total max_val x) := by
  obtain ⟨l1, l2, hdec, hlt, hle⟩ :=
    pickBest_firstMin smoothed cumulative total max_val candidates h
  refine ⟨fun idx => rfl, pickBest_mem _ _ _ _ _ h, ?_, ⟨l1, l2, hdec, hlt⟩⟩
  intro x hx
  rw [hdec] at hx
  rcases List.mem_append.mp hx with h' | h'
  · exact le_of_lt (hlt x h')
  · rcases List.mem_cons.mp h' with h'' | h''
    · subst h''
      exact le_refl _
    · exact hle x h''

/-- C7, witness on the concrete candidate list `[5, 6]` of the flat
projection. -/
theorem c7_witness :
    pickBest [(2:ℚ), 2, 2, 2, 2, 0, 2, 2, 2, 2, 2, 2]
        (npCumsum [(2:ℚ), 2, 2, 2, 2, 0, 2, 2, 2, 2, 2, 2]) 22 2 [5, 6] ∈ [5, 6] :=
  (c7_scoring [(2:ℚ), 2, 2, 2, 2, 0, 2, 2, 2, 2, 2, 2]
    (npCumsum [(2:ℚ), 2, 2, 2, 2, 0, 2, 2, 2, 2, 2, 2]) 22 2 [5, 6] (by decide)).2.1

/-- C8: with the search-window maximum held fixed (and nonnegative, as it is
for every actual projection), the locator's confidence is non-decreasing as
the chosen valley's smoothed projection value decreases. -/
theorem c8_confidence_monotone (max_val v1 v2 : ℚ) (hM : 0 ≤ max_val) (h : v2 ≤ v1) :
    confidenceFormula max_val v1 ≤ confidenceFormula max_val v2 := by
  unfold confidenceFormula eps
  have hpos : (0:ℚ) < max_val + 1/1000000 := by linarith
  rw [div_le_div_iff₀ hpos hpos]
  nlinarith

/-- C8, witness at a concrete deepening valley. -/
theorem c8_witness : confidenceFormula 2 1 ≤ confidenceFormula 2 0 :=
  c8_confidence_monotone 2 1 0 (by norm_num) (by norm_num)

/-- C10: for every mask of width at least 2 and every integer split column,
including out-of-range ones, `_extract_pages` clamps the column into
`[1, width - 1]`, so the right-page region `[clamped, width)` and the
left-page region `[0, clamped)` each span at least one column and the
extraction is total. -/
theorem c10_extract_clamped (image : Image) (m : Mask) (split_x : Int)
    (padding_x padding_y : Nat) (hw : 2 ≤ m.width) :
    1 ≤ (npClip split_x 1 ((m.width : Int) - 1)).toNat ∧
    (npClip split_x 1 ((m.width : Int) - 1)).toNat + 1 ≤ m.width ∧
    extractPages image m split_x padding_x padding_y =
      [cropRegion image
        (computeRegionBbox m ((npClip split_x 1 ((m.width : Int) - 1)).toNat) m.width)
        padding_x padding_y,
       cropRegion image
        (computeRegionBbox m 0 ((npClip split_x 1 ((m.width : Int) - 1)).toNat))
        padding_x padding_y] := by
  refine ⟨?_, ?_, by simp only [extractPages]⟩
  · simp only [npClip]
    omega
  · simp only [npClip]
    omega

/-- C10, witness at the concrete out-of-range split column `-5`. -/
theorem c10_witness :
    1 ≤ (npClip (-5) 1 (((thresholdMask uniformSample).width : Int) - 1)).toNat :=
  (c10_extract_clamped uniformSample (thresholdMask uniformSample) (-5) 1 1 (by decide)).1

end DoublepageSplit
